import Mathlib

/-!
Verification of the aggregation-and-labeling pipeline of the
Sustainable-LLM-chatbot replication package.

The development shallowly embeds the parts of the analysis scripts that the
specification talks about:

* the prompt-record preprocessing of
  `Controlled-Experiment/Analysis-Scripts/python/analyze_user_behavior.py`,
  `analyze_energy_consumption.py` and `analyze_performance_tradeoffs.py`
  (sent-prompt filtering, mode-code labelling, derived token/energy metrics,
  grouped aggregation), and
* the theme-classification pipeline of `survey analyzer/src/text_analysis.py`
  (keyword-based theme assignment with LDA fallback, theme frequency table).

Pandas float columns are modelled by `PFloat`: an exact rational payload plus
the IEEE-754 special values NaN and ±infinity that pandas produces on
division by zero.  Pandas `Series.map` over a dictionary yields NaN for keys
absent from the dictionary; this is modelled by `Option`, with `none`
standing for a missing value (NaN) in a label column.
-/

/-- Model of a pandas float cell: an exact rational number, or one of the
IEEE special values NaN / +inf / -inf that numpy produces instead of raising
on division by zero. -/
inductive PFloat : Type
| num : ℚ → PFloat
| nan : PFloat
| inf : PFloat
| neginf : PFloat
deriving DecidableEq, Inhabited

/-- A `PFloat` is an ordinary finite numeric value (not NaN and not ±inf). -/
def PFloat.isNum : PFloat → Bool
| PFloat.num _ => true
| _ => false

/-- A `PFloat` is the NaN missing-value marker (pandas' null for floats). -/
def PFloat.isNan : PFloat → Bool
| PFloat.nan => true
| _ => false

/-- IEEE-style addition on `PFloat`, as performed by a pandas column sum
such as `numberOfInputTokens + numberOfOutputTokens`. -/
def pfAdd : PFloat → PFloat → PFloat
| PFloat.nan, _ => PFloat.nan
| _, PFloat.nan => PFloat.nan
| PFloat.inf, PFloat.neginf => PFloat.nan
| PFloat.neginf, PFloat.inf => PFloat.nan
| PFloat.inf, _ => PFloat.inf
| _, PFloat.inf => PFloat.inf
| PFloat.neginf, _ => PFloat.neginf
| _, PFloat.neginf => PFloat.neginf
| PFloat.num a, PFloat.num b => PFloat.num (a + b)

/-- IEEE-style division on `PFloat`, as performed by a pandas column
division such as `usageInWh / total_tokens`.  Division by zero never raises:
it yields NaN for `0/0` and ±inf for `x/0` with `x ≠ 0`, exactly as numpy
float division does (signed zeros are not modelled). -/
def pfDiv : PFloat → PFloat → PFloat
| PFloat.nan, _ => PFloat.nan
| _, PFloat.nan => PFloat.nan
| PFloat.inf, PFloat.inf => PFloat.nan
| PFloat.inf, PFloat.neginf => PFloat.nan
| PFloat.neginf, PFloat.inf => PFloat.nan
| PFloat.neginf, PFloat.neginf => PFloat.nan
| PFloat.inf, PFloat.num b => if b < 0 then PFloat.neginf else PFloat.inf
| PFloat.neginf, PFloat.num b => if b < 0 then PFloat.inf else PFloat.neginf
| PFloat.num _, PFloat.inf => PFloat.num 0
| PFloat.num _, PFloat.neginf => PFloat.num 0
| PFloat.num a, PFloat.num b =>
    if b = 0 then
      if a = 0 then PFloat.nan
      else if a < 0 then PFloat.neginf else PFloat.inf
    else PFloat.num (a / b)

/-- One raw prompt record after JSON loading and `pd.to_numeric` coercion
(so the numeric fields are `PFloat`: a number or NaN).  `isSent` is `none`
when the record has no `isSent` field at all (missing column cell). -/
structure Prompt : Type where
  userId : String
  conversationId : String
  chatMode : ℤ
  isSent : Option Bool
  numberOfInputTokens : PFloat
  numberOfOutputTokens : PFloat
  usageInWh : PFloat
deriving DecidableEq, Inhabited

/-- The fixed 3-entry mode lookup `{0: 'Energy Efficient', 1: 'Balanced',
2: 'Performance'}` applied through pandas `Series.map`: a chat-mode code
outside the dictionary maps to `none` (NaN in the `mode_name` column). -/
def mode_name (c : ℤ) : Option String :=
  if c = 0 then some "Energy Efficient"
  else if c = 1 then some "Balanced"
  else if c = 2 then some "Performance"
  else none

/-- The sent-prompt filter of `preprocess_data`.  The Python code guards the
filter with `if 'isSent' in self.prompts_df.columns:`; a DataFrame built
from a list of dicts has the column exactly when some record carries the
field, hence the `any` test.  When the column exists, `df['isSent'] == True`
is `false` for both `False` cells and NaN cells. -/
def filterSent (rows : List Prompt) : List Prompt :=
  if rows.any (fun r => r.isSent.isSome) then
    rows.filter (fun r => r.isSent == some true)
  else rows

/-- A normalized prompt record: the raw record plus the derived columns
added by `preprocess_data` / `analyze_token_efficiency`. -/
structure NormPrompt : Type where
  base : Prompt
  mode_name : Option String
  total_tokens : PFloat
  energy_per_token : PFloat
  tokens_per_wh : PFloat
  frac_in_out : PFloat
deriving DecidableEq, Inhabited

/-- The derived-column step of `preprocess_data`: adds the `mode_name`
label and the derived metrics `total_tokens`, `energy_per_token`,
`tokens_per_wh` and the input/output token ratio (named
`input_output_ratio` in the source; renamed here). -/
def addDerived (rows : List Prompt) : List NormPrompt :=
  rows.map fun r =>
    { base := r
      mode_name := mode_name r.chatMode
      total_tokens := pfAdd r.numberOfInputTokens r.numberOfOutputTokens
      energy_per_token :=
        pfDiv r.usageInWh (pfAdd r.numberOfInputTokens r.numberOfOutputTokens)
      tokens_per_wh :=
        pfDiv (pfAdd r.numberOfInputTokens r.numberOfOutputTokens) r.usageInWh
      frac_in_out := pfDiv r.numberOfInputTokens r.numberOfOutputTokens }

/-- Full preprocessing: sent-prompt filtering followed by derived columns,
as in `preprocess_data` of `analyze_performance_tradeoffs.py`. -/
def preprocess_data (rows : List Prompt) : List NormPrompt :=
  addDerived (filterSent rows)

/-- Pandas `df.groupby(key)`: one group per distinct non-null key value;
rows whose key is NaN (`none`) belong to no group (`dropna=True`, the
pandas default). -/
def groupBy {α K : Type} [DecidableEq K] (key : α → Option K) (rows : List α) :
    List (K × List α) :=
  (rows.filterMap key).dedup.map
    (fun k => (k, rows.filter (fun r => decide (key r = some k))))

/-- Pandas `'count'` aggregation on a column: the number of non-NaN cells of
that column within the group (±inf cells are not null and are counted). -/
def aggCount {α : Type} (col : α → PFloat) (g : List α) : ℕ :=
  (g.filter (fun r => !(col r).isNan)).length

/-- The sum of the count column across all rows of a grouped aggregate. -/
def sumCounts {α K : Type} [DecidableEq K] (key : α → Option K)
    (col : α → PFloat) (rows : List α) : ℕ :=
  ((groupBy key rows).map (fun kg => aggCount col kg.2)).sum

/-- Mode-switch counting from `analyze_mode_switching`:
`sum(1 for i in range(1, len(x)) if x[i] != x[i-1])`. -/
def mode_switches (x : List ℤ) : ℕ :=
  ((List.range' 1 (x.length - 1)).filter
    (fun i => decide (x.getD i 0 ≠ x.getD (i - 1) 0))).length

/-- The specification's formula for the same quantity:
the number of indices `i ∈ [1, n)` with `m[i] ≠ m[i-1]`. -/
def specSwitches (x : List ℤ) : ℕ :=
  ((Finset.Ico 1 x.length).filter
    (fun i => x.getD i 0 ≠ x.getD (i - 1) 0)).card

/-- Mode-diversity entropy from `calculate_entropy`: Shannon entropy, base
2, over the empirical distribution of the mode values actually appearing in
the sequence (`Counter(sequence)` enumerates exactly the distinct values
present, so no `0 * log2 0` term arises). -/
noncomputable def calculate_entropy (seq : List ℤ) : ℝ :=
  -(Finset.sum seq.toFinset fun v =>
      ((seq.count v : ℝ) / (seq.length : ℝ)) *
        Real.logb 2 ((seq.count v : ℝ) / (seq.length : ℝ)))

/-- The fixed theme → keyword table of `merge_into_themes` (descriptions
omitted: no analysed behaviour depends on them). -/
def theme_mapping : List (String × List String) :=
  [("Awareness/Transparency",
    ["transparency", "awareness", "information", "disclosure", "visible", "show"]),
   ("Policy/Tax/Offsets",
    ["tax", "policy", "offset", "fee", "regulation", "government", "carbon"]),
   ("Model/Algorithm Efficiency",
    ["algorithm", "model", "efficiency", "optimization", "sparse", "moe", "reinforcement"]),
   ("Infrastructure/Green Energy",
    ["infrastructure", "green", "energy", "data", "centre", "center", "cooling", "renewable"]),
   ("Usage Scope/Limitations",
    ["limit", "entertainment", "meaningful", "purpose", "scope", "restrict", "boundary"]),
   ("Pricing/Responsibility",
    ["pricing", "cost", "responsibility", "customer", "provider", "service", "charge"]),
   ("Alternative Solutions",
    ["alternative", "google", "search", "tool", "deepl", "replace", "substitute"]),
   ("Bias/Social Impact",
    ["bias", "social", "training", "data", "influence", "individual", "dimension"])]

/-- Primary keyword assignment of `merge_into_themes`: a response is
assigned every theme whose keyword set intersects its cleaned token set,
in table order (multi-label). -/
def primary_themes (tokens : List String) : List String :=
  (theme_mapping.filter (fun t => t.2.any (fun w => tokens.contains w))).map Prod.fst

/-- The LDA fallback of `merge_into_themes`: the first theme (in table
order) one of whose keywords appears among the dominant topic's top terms;
`[]` when no theme matches. -/
def lda_fallback (topicWords : List String) : List String :=
  match theme_mapping.find? (fun t => topicWords.any (fun w => t.2.contains w)) with
  | some t => [t.1]
  | none => []

/-- Theme assignment for the `i`-th response in `merge_into_themes`:
primary keyword match; if that yields nothing, the LDA-topic fallback
(guarded by `i < len(lda_topics)` as in the source); if still nothing,
the catch-all `General`. -/
def assign_themes (ldaTopics : List ℕ) (ldaTerms : ℕ → List String)
    (i : ℕ) (tokens : List String) : List String :=
  let primary := primary_themes tokens
  if primary.isEmpty then
    let fb :=
      if i < ldaTopics.length then lda_fallback (ldaTerms (ldaTopics.getD i 0))
      else []
    if fb.isEmpty then ["General"] else fb
  else primary

/-- All theme labels carried by a list of (original text, assigned themes)
pairs, in corpus order — the stream that `create_frequency_table` feeds
into its `Counter`. -/
def allLabels (rts : List (String × List String)) : List String :=
  rts.foldr (fun p acc => p.2 ++ acc) []

/-- Round-half-even to an integer, the rounding used by Python's built-in
`round`. -/
def rhe (q : ℚ) : ℤ :=
  if q - ⌊q⌋ < 1 / 2 then ⌊q⌋
  else if (1 : ℚ) / 2 < q - ⌊q⌋ then ⌊q⌋ + 1
  else if 2 ∣ ⌊q⌋ then ⌊q⌋ else ⌊q⌋ + 1

/-- Python's `round(x, 1)`: round-half-even to one decimal place. -/
def round1 (q : ℚ) : ℚ := (rhe (q * 10) : ℚ) / 10

/-- The theme frequency table of `create_frequency_table`: one row per
distinct assigned theme with its occurrence count and
`round(count / total_responses * 100, 1)`.  `Counter.most_common` orders
rows by descending count; row order is abstracted here (no analysed
property depends on it). -/
def freqTable (rts : List (String × List String)) : List (String × ℕ × ℚ) :=
  (allLabels rts).dedup.map fun t =>
    (t, (allLabels rts).count t,
      round1 ((((allLabels rts).count t : ℚ) / (rts.length : ℚ)) * 100))

/-! ## Helper lemmas -/

/-- Division by a zero cell never produces a finite numeric value: the result
is one of the sentinels NaN / +inf / -inf, whatever the numerator cell is. -/
theorem pfDiv_zero_not_num (x : PFloat) : (pfDiv x (PFloat.num 0)).isNum = false := by
  cases x with
  | num a =>
    show (if (0 : ℚ) = 0 then
        (if a = 0 then PFloat.nan else if a < 0 then PFloat.neginf else PFloat.inf)
      else PFloat.num (a / 0)).isNum = false
    rw [if_pos rfl]
    by_cases h : a = 0
    · simp [h, PFloat.isNum]
    · by_cases h2 : a < 0 <;> simp [h, h2, PFloat.isNum]
  | nan => rfl
  | inf => simp [pfDiv, PFloat.isNum]
  | neginf => simp [pfDiv, PFloat.isNum]

/-- A non-numeric `PFloat` is in particular not the number zero. -/
theorem isNum_false_ne_zero (x : PFloat) (h : x.isNum = false) : x ≠ PFloat.num 0 := by
  intro hx
  rw [hx] at h
  simp [PFloat.isNum] at h

/-- The base record of any preprocessed row comes from the sent-filtered rows. -/
theorem mem_preprocess_base (rows : List Prompt) (nr : NormPrompt)
    (h : nr ∈ preprocess_data rows) : nr.base ∈ filterSent rows := by
  unfold preprocess_data addDerived at h
  rcases List.mem_map.mp h with ⟨r0, hr0, rfl⟩
  exact hr0

/-- A record whose `isSent` cell is `False` does not survive the sent filter
(the presence of the cell guarantees the `isSent` column exists). -/
theorem not_mem_filterSent (rows : List Prompt) (r : Prompt)
    (hr : r ∈ rows) (hs : r.isSent = some false) : r ∉ filterSent rows := by
  unfold filterSent
  rw [if_pos (List.any_eq_true.mpr ⟨r, hr, by simp [hs]⟩)]
  intro hmem
  have h2 := (List.mem_filter.mp hmem).2
  simp [hs] at h2

/-- Every member of a group produced by `groupBy` is one of the grouped rows. -/
theorem groupBy_subset {α K : Type} [DecidableEq K] (key : α → Option K)
    (rows : List α) (k : K) (g : List α) (hg : (k, g) ∈ groupBy key rows) :
    ∀ x ∈ g, x ∈ rows := by
  unfold groupBy at hg
  rcases List.mem_map.mp hg with ⟨k', _, heq⟩
  have hsnd : g = rows.filter (fun r => decide (key r = some k')) := by
    have h2 := congrArg Prod.snd heq
    simpa using h2.symm
  intro x hx
  rw [hsnd] at hx
  exact (List.mem_filter.mp hx).1

/-- A row with a non-null key belongs to the group of its own key value. -/
theorem mem_groupBy_self {α K : Type} [DecidableEq K] (key : α → Option K)
    (rows : List α) (x : α) (k : K) (hx : x ∈ rows) (hk : key x = some k) :
    ∃ g, (k, g) ∈ groupBy key rows ∧ x ∈ g := by
  refine ⟨rows.filter (fun r => decide (key r = some k)), ?_, ?_⟩
  · unfold groupBy
    apply List.mem_map.mpr
    refine ⟨k, ?_, rfl⟩
    rw [List.mem_dedup]
    exact List.mem_filterMap.mpr ⟨x, hx, hk⟩
  · rw [List.mem_filter]
    exact ⟨hx, by simp [hk]⟩

/-- A key value carried by no row yields no group at all. -/
theorem groupBy_no_row {α K : Type} [DecidableEq K] (key : α → Option K)
    (rows : List α) (k : K) (h : ∀ r ∈ rows, ¬ key r = some k) :
    ∀ g, (k, g) ∉ groupBy key rows := by
  intro g hg
  unfold groupBy at hg
  rcases List.mem_map.mp hg with ⟨k', hk', heq⟩
  have hfst : k' = k := by
    have h2 := congrArg Prod.fst heq
    simpa using h2
  subst hfst
  have hmem : k' ∈ rows.filterMap key := List.mem_dedup.mp hk'
  rcases List.mem_filterMap.mp hmem with ⟨r, hr, hkey⟩
  exact h r hr hkey

/-- Summing, over any finite key set covering all keys of `rows`, the number
of rows matching each key (and a side predicate) counts exactly the rows
with a non-null key (and the side predicate). -/
theorem sum_filter_key {α K : Type} [DecidableEq K] (key : α → Option K) (p : α → Bool) :
    ∀ (rows : List α) (S : Finset K), (∀ r ∈ rows, ∀ k, key r = some k → k ∈ S) →
      (Finset.sum S fun k => (rows.filter (fun r => decide (key r = some k) && p r)).length)
        = (rows.filter (fun r => (key r).isSome && p r)).length := by
  intro rows
  induction rows with
  | nil => intro S _; simp
  | cons r rest ih =>
    intro S hS
    have hrest : ∀ r' ∈ rest, ∀ k, key r' = some k → k ∈ S :=
      fun r' h => hS r' (List.mem_cons_of_mem _ h)
    have hlen : ∀ (q : α → Bool) (l : List α) (x : α),
        (List.filter q (x :: l)).length
          = (if q x then 1 else 0) + (List.filter q l).length := by
      intro q l x
      rw [List.filter_cons]
      split <;> simp [Nat.add_comm]
    rcases hk : key r with _ | k0
    · have hz : ∀ k : K, (decide (key r = some k) && p r) = false := by
        intro k; simp [hk]
      calc (Finset.sum S fun k =>
              (List.filter (fun x => decide (key x = some k) && p x) (r :: rest)).length)
          = Finset.sum S fun k =>
              (List.filter (fun x => decide (key x = some k) && p x) rest).length := by
            apply Finset.sum_congr rfl
            intro k _
            rw [hlen, hz k]
            simp
        _ = (rest.filter (fun x => (key x).isSome && p x)).length := ih S hrest
        _ = ((r :: rest).filter (fun x => (key x).isSome && p x)).length := by
            rw [hlen]
            simp [hk]
    · have hk0S : k0 ∈ S := hS r (List.mem_cons_self r rest) k0 hk
      have step : (Finset.sum S fun k =>
              (List.filter (fun x => decide (key x = some k) && p x) (r :: rest)).length)
          = (Finset.sum S fun k => (if k0 = k ∧ p r then 1 else 0))
            + (Finset.sum S fun k =>
                (List.filter (fun x => decide (key x = some k) && p x) rest).length) := by
        rw [← Finset.sum_add_distrib]
        apply Finset.sum_congr rfl
        intro k _
        rw [hlen]
        congr 1
        by_cases hkk : k0 = k <;> by_cases hp : p r <;> simp [hk, hkk, hp]
      rw [step, ih S hrest, hlen]
      by_cases hp : p r
      · have hind : (Finset.sum S fun k => (if k0 = k ∧ p r then 1 else 0))
            = (Finset.sum S fun k => (if k0 = k then 1 else 0)) := by
          apply Finset.sum_congr rfl
          intro k _
          simp [hp]
        rw [hind, Finset.sum_ite_eq S k0 (fun _ => 1), if_pos hk0S]
        simp [hk, hp]
      · have hind : (Finset.sum S fun k => (if k0 = k ∧ p r then 1 else 0)) = 0 := by
          apply Finset.sum_eq_zero
          intro k _
          simp [hp]
        rw [hind]
        simp [hk, hp]

/-- The sum of the per-group count column equals the number of rows having
both a non-null grouping key and a non-NaN cell in the counted column. -/
theorem sumCounts_eq {α K : Type} [DecidableEq K] (key : α → Option K)
    (col : α → PFloat) (rows : List α) :
    sumCounts key col rows
      = (rows.filter (fun r => (key r).isSome && !(col r).isNan)).length := by
  unfold sumCounts groupBy
  rw [List.map_map]
  have hnd := List.nodup_dedup (rows.filterMap key)
  have e : (rows.filterMap key).dedup.toFinset = (rows.filterMap key).toFinset := by
    ext x; simp [List.mem_dedup]
  have hsum := List.sum_toFinset
    (fun k => (rows.filter (fun r => decide (key r = some k) && !(col r).isNan)).length) hnd
  rw [e] at hsum
  have hmap : List.map ((fun kg : K × List α => aggCount col kg.2) ∘
        fun k => (k, rows.filter (fun r => decide (key r = some k))))
        (rows.filterMap key).dedup
      = List.map
          (fun k => (rows.filter (fun r => decide (key r = some k) && !(col r).isNan)).length)
          (rows.filterMap key).dedup := by
    apply List.map_congr_left
    intro k _
    simp only [Function.comp]
    unfold aggCount
    rw [List.filter_filter]
    congr 1
    apply List.filter_congr
    intro a _
    exact Bool.and_comm _ _
  rw [hmap, ← hsum]
  apply sum_filter_key key (fun r => !(col r).isNan) rows
  intro r hr k hk
  simp only [List.mem_toFinset, List.mem_filterMap]
  exact ⟨r, hr, hk⟩

/-- The two mode-label maps of `addDerived` keep every record: projecting
the normalized rows back to their base records is the identity. -/
theorem addDerived_base (rows : List Prompt) :
    (addDerived rows).map NormPrompt.base = rows := by
  unfold addDerived
  rw [List.map_map]
  have h : List.map (NormPrompt.base ∘ fun r : Prompt =>
      ({ base := r
         mode_name := mode_name r.chatMode
         total_tokens := pfAdd r.numberOfInputTokens r.numberOfOutputTokens
         energy_per_token :=
           pfDiv r.usageInWh (pfAdd r.numberOfInputTokens r.numberOfOutputTokens)
         tokens_per_wh :=
           pfDiv (pfAdd r.numberOfInputTokens r.numberOfOutputTokens) r.usageInWh
         frac_in_out := pfDiv r.numberOfInputTokens r.numberOfOutputTokens } : NormPrompt))
      rows = List.map id rows := rfl
  rw [h, List.map_id]

/-- The `mode_name` column produced by `addDerived` is exactly the pointwise
`chatMode` lookup. -/
theorem addDerived_mode_names (rows : List Prompt) :
    (addDerived rows).map NormPrompt.mode_name
      = rows.map (fun r => mode_name r.chatMode) := by
  unfold addDerived
  rw [List.map_map]
  rfl

/-- Summing the multiplicities of the distinct elements of a list recovers
its length. -/
theorem sum_count_toFinset {α : Type} [DecidableEq α] (l : List α) :
    (Finset.sum l.toFinset fun v => l.count v) = l.length := by
  have e : l.dedup.toFinset = l.toFinset := by ext x; simp [List.mem_dedup]
  rw [← e, List.sum_toFinset _ (List.nodup_dedup l)]
  exact List.sum_map_count_dedup_eq_length l

/-! ## Claim theorems -/

/-- Claim C1: for every user's chronologically-ordered mode sequence
`m[0..n-1]`, the mode-switch count computed by `analyze_mode_switching`
equals the number of indices `i ∈ [1, n)` with `m[i] ≠ m[i-1]`; it is `0`
for every constant sequence and `3` for the sequence `[A, B, A, B]`. -/
theorem C1_mode_switch_count :
    (∀ x : List ℤ, mode_switches x = specSwitches x)
    ∧ (∀ (x : List ℤ) (a : ℤ), (∀ m ∈ x, m = a) → mode_switches x = 0)
    ∧ (∀ a b : ℤ, a ≠ b → mode_switches [a, b, a, b] = 3) := by
  refine ⟨?_, ?_, ?_⟩
  · intro x
    unfold mode_switches specSwitches
    have hft : (List.range' 1 (x.length - 1)).toFinset = Finset.Ico 1 x.length := by
      ext m
      simp only [List.mem_toFinset, List.mem_range'_1, Finset.mem_Ico]
      omega
    have hnd : (List.range' 1 (x.length - 1)).Nodup :=
      List.nodup_range' 1 (x.length - 1)
    have h2 : (Finset.Ico 1 x.length).filter (fun i => x.getD i 0 ≠ x.getD (i - 1) 0)
        = ((List.range' 1 (x.length - 1)).filter
            (fun i => decide (x.getD i 0 ≠ x.getD (i - 1) 0))).toFinset := by
      rw [List.toFinset_filter, hft]
      apply Finset.filter_congr
      intro i _
      simp
    rw [h2, List.toFinset_card_of_nodup (hnd.filter _)]
  · intro x a hall
    unfold mode_switches
    rw [List.length_eq_zero, List.filter_eq_nil_iff]
    intro i hi
    rw [List.mem_range'_1] at hi
    have h1 : i < x.length := by omega
    have h2 : i - 1 < x.length := by omega
    rw [List.getD_eq_getElem _ _ h1, List.getD_eq_getElem _ _ h2]
    simp [hall _ (List.getElem_mem h1), hall _ (List.getElem_mem h2)]
  · intro a b hab
    simp [mode_switches, List.range', hab, Ne.symm hab]

/-- Witness for C1 at concrete sequences: the constant sequence
`[2, 2, 2, 2]` has `0` switches and `[0, 1, 0, 1]` has `3`. -/
theorem C1_mode_switch_count_witness :
    mode_switches [2, 2, 2, 2] = 0 ∧ mode_switches [0, 1, 0, 1] = 3 :=
  ⟨C1_mode_switch_count.2.1 [2, 2, 2, 2] 2 (by decide),
   C1_mode_switch_count.2.2 0 1 (by decide)⟩

/-- Claim C2: `calculate_entropy` is the base-2 Shannon entropy over the
empirical distribution of only the mode values actually appearing in the
sequence (every summand has a strictly positive count, so no `0 * log2 0`
term arises); it is `0` for a sequence using a single mode and `1` for a
sequence using exactly two modes equally often. -/
theorem C2_mode_entropy :
    (∀ (seq : List ℤ) (v : ℤ), v ∈ seq.toFinset → 0 < seq.count v)
    ∧ (∀ (seq : List ℤ) (a : ℤ), seq ≠ [] → (∀ m ∈ seq, m = a) →
        calculate_entropy seq = 0)
    ∧ (∀ (seq : List ℤ) (a b : ℤ) (k : ℕ), a ≠ b → 0 < k →
        seq.count a = k → seq.count b = k → seq.toFinset = {a, b} →
        calculate_entropy seq = 1) := by
  refine ⟨?_, ?_, ?_⟩
  · intro seq v hv
    exact List.count_pos_iff.mpr (List.mem_toFinset.mp hv)
  · intro seq a hne hall
    have hfin : seq.toFinset = {a} := by
      ext x
      simp only [List.mem_toFinset, Finset.mem_singleton]
      constructor
      · exact fun hx => hall x hx
      · intro hx
        subst hx
        cases seq with
        | nil => exact absurd rfl hne
        | cons y t =>
          have hy := hall y (by simp)
          rw [← hy]; simp
    have hcount : seq.count a = seq.length := by
      rw [List.count_eq_length]
      intro b hb
      exact (hall b hb).symm
    have hlen : (seq.length : ℝ) ≠ 0 :=
      Nat.cast_ne_zero.mpr (List.length_pos.mpr hne).ne'
    unfold calculate_entropy
    rw [hfin, Finset.sum_singleton, hcount, div_self hlen, Real.logb_one]
    ring
  · intro seq a b k hab hk ha hb hfin
    have hlen : seq.length = 2 * k := by
      have h := sum_count_toFinset seq
      rw [hfin, Finset.sum_pair hab, ha, hb] at h
      omega
    have hkR : ((k : ℝ)) ≠ 0 := Nat.cast_ne_zero.mpr hk.ne'
    have hhalf : ((k : ℝ)) / ((seq.length : ℝ)) = 1 / 2 := by
      rw [hlen]
      push_cast
      field_simp
      ring
    have hlog2 : Real.log 2 ≠ 0 := (Real.log_pos (by norm_num)).ne'
    have hlogb : Real.logb 2 ((1 : ℝ) / 2) = -1 := by
      rw [one_div, ← Real.log_div_log, Real.log_inv, neg_div, div_self hlog2]
    unfold calculate_entropy
    rw [hfin, Finset.sum_pair hab, ha, hb, hhalf, hlogb]
    norm_num

/-- Witness for C2 at concrete sequences: the single-mode sequence `[2, 2]`
has entropy `0` and the evenly split two-mode sequence `[0, 1]` has
entropy `1`. -/
theorem C2_mode_entropy_witness :
    calculate_entropy [2, 2] = 0 ∧ calculate_entropy [0, 1] = 1 :=
  ⟨C2_mode_entropy.2.1 [2, 2] 2 (by decide) (by decide),
   C2_mode_entropy.2.2 [0, 1] 0 1 1 (by decide) (by decide)
     (by decide) (by decide) (by decide)⟩

/-- Claim C3: in every normalized prompt record, the division-based derived
fields never raise (the embedded operations are total) and produce a
non-numeric sentinel value (NaN or ±inf, never an ordinary number and in
particular never zero) whenever their denominator cell is zero:
`energy_per_token` when `total_tokens` is 0, `tokens_per_wh` when
`usageInWh` is 0, and the input/output token ratio when the output token
count is 0. -/
theorem C3_division_sentinels :
    ∀ (rows : List Prompt) (nr : NormPrompt), nr ∈ preprocess_data rows →
      (nr.total_tokens = PFloat.num 0 →
        nr.energy_per_token.isNum = false ∧ nr.energy_per_token ≠ PFloat.num 0)
      ∧ (nr.base.usageInWh = PFloat.num 0 → nr.tokens_per_wh.isNum = false)
      ∧ (nr.base.numberOfOutputTokens = PFloat.num 0 →
          nr.frac_in_out.isNum = false) := by
  intro rows nr hmem
  unfold preprocess_data addDerived at hmem
  rcases List.mem_map.mp hmem with ⟨r0, _, rfl⟩
  refine ⟨?_, ?_, ?_⟩
  · intro h
    dsimp only at h ⊢
    rw [h]
    exact ⟨pfDiv_zero_not_num _, isNum_false_ne_zero _ (pfDiv_zero_not_num _)⟩
  · intro h
    dsimp only at h ⊢
    rw [h]
    exact pfDiv_zero_not_num _
  · intro h
    dsimp only at h ⊢
    rw [h]
    exact pfDiv_zero_not_num _

/-- Concrete record for the C3 witness: a sent prompt with zero input and
output tokens and a nonzero energy reading. -/
def pTokensZero : Prompt :=
  { userId := "u2", conversationId := "c2", chatMode := 0, isSent := some true
    numberOfInputTokens := PFloat.num 0, numberOfOutputTokens := PFloat.num 0
    usageInWh := PFloat.num 500 }

/-- Concrete record for the C3 witness: a sent prompt with zero energy and
zero output tokens. -/
def pZeroDenoms : Prompt :=
  { userId := "u3", conversationId := "c3", chatMode := 1, isSent := some true
    numberOfInputTokens := PFloat.num 7, numberOfOutputTokens := PFloat.num 0
    usageInWh := PFloat.num 0 }

/-- Witness for C3: on the concrete zero-denominator records, every
division-based derived field evaluates to a non-numeric sentinel. -/
theorem C3_division_sentinels_witness :
    (((preprocess_data [pTokensZero]).getD 0 default).energy_per_token.isNum = false
      ∧ ((preprocess_data [pTokensZero]).getD 0 default).energy_per_token
          ≠ PFloat.num 0)
    ∧ ((preprocess_data [pZeroDenoms]).getD 0 default).tokens_per_wh.isNum = false
    ∧ ((preprocess_data [pZeroDenoms]).getD 0 default).frac_in_out.isNum = false :=
  ⟨(C3_division_sentinels [pTokensZero] _
      (by simp [preprocess_data, filterSent, addDerived, pTokensZero])).1
      (by simp [preprocess_data, filterSent, addDerived, pTokensZero, pfAdd]),
   (C3_division_sentinels [pZeroDenoms] _
      (by simp [preprocess_data, filterSent, addDerived, pZeroDenoms])).2.1
      (by simp [preprocess_data, filterSent, addDerived, pZeroDenoms]),
   (C3_division_sentinels [pZeroDenoms] _
      (by simp [preprocess_data, filterSent, addDerived, pZeroDenoms])).2.2
      (by simp [preprocess_data, filterSent, addDerived, pZeroDenoms])⟩

/-- Counterexample to claim C4 as stated: the out-of-range chat-mode code
`3` is mapped to the missing-value marker `none` (NaN in the `mode_name`
column), not to an explicit string label such as `"unknown"`. -/
theorem C4_unknown_mode_cex : mode_name 3 = none := by decide

/-- Claim C4 (amended): a chat-mode code outside the fixed 3-entry lookup
maps to the missing-value marker `none` (not to an explicit `"unknown"`
string label), without crashing; the labelling step retains every record
and fills the `mode_name` column pointwise from the lookup. -/
theorem C4_unknown_mode :
    (∀ c : ℤ, c ≠ 0 → c ≠ 1 → c ≠ 2 → mode_name c = none)
    ∧ (∀ rows : List Prompt, (addDerived rows).map NormPrompt.base = rows)
    ∧ (∀ rows : List Prompt,
        (addDerived rows).map NormPrompt.mode_name
          = rows.map (fun r => mode_name r.chatMode)) := by
  refine ⟨?_, addDerived_base, addDerived_mode_names⟩
  intro c h0 h1 h2
  simp [mode_name, h0, h1, h2]

/-- Witness for C4 (amended) at the concrete out-of-range code `-1`. -/
theorem C4_unknown_mode_witness : mode_name (-1) = none :=
  C4_unknown_mode.1 (-1) (by decide) (by decide) (by decide)

/-- Claim C5: a prompt record whose was-sent flag is `False` participates in
no aggregation output: no row of the preprocessed data is built from it,
and no group of any grouped aggregation over the preprocessed data
contains a row built from it. -/
theorem C5_unsent_excluded :
    ∀ (rows : List Prompt) (r : Prompt), r ∈ rows → r.isSent = some false →
      (∀ nr ∈ preprocess_data rows, nr.base ≠ r)
      ∧ (∀ (K : Type) [DecidableEq K] (key : NormPrompt → Option K) (k : K)
          (g : List NormPrompt), (k, g) ∈ groupBy key (preprocess_data rows) →
          ∀ nr ∈ g, nr.base ≠ r) := by
  intro rows r hr hs
  have hnot := not_mem_filterSent rows r hr hs
  constructor
  · intro nr hnr hbase
    exact hnot (hbase ▸ mem_preprocess_base rows nr hnr)
  · intro K _ key k g hg nr hnr hbase
    exact hnot (hbase ▸ mem_preprocess_base rows nr
      (groupBy_subset key (preprocess_data rows) k g hg nr hnr))

/-- Concrete unsent draft record for the C5 witness. -/
def pDraft : Prompt :=
  { userId := "u1", conversationId := "c1", chatMode := 1, isSent := some false
    numberOfInputTokens := PFloat.num 3, numberOfOutputTokens := PFloat.num 4
    usageInWh := PFloat.num 1 }

/-- Concrete sent record used in several witnesses. -/
def pSent : Prompt :=
  { userId := "u1", conversationId := "c1", chatMode := 1, isSent := some true
    numberOfInputTokens := PFloat.num 100, numberOfOutputTokens := PFloat.num 50
    usageInWh := PFloat.num 1 }

/-- Witness for C5: with a draft and a sent record loaded, the single
surviving normalized row is not built from the draft. -/
theorem C5_unsent_excluded_witness :
    ((preprocess_data [pDraft, pSent]).getD 0 default).base ≠ pDraft :=
  (C5_unsent_excluded [pDraft, pSent] pDraft (List.mem_cons_self pDraft [pSent]) rfl).1
    ((preprocess_data [pDraft, pSent]).getD 0 default)
    (by simp [preprocess_data, filterSent, addDerived, pDraft, pSent])

/-- Claim C6: in every normalized prompt record, the derived `total_tokens`
column is exactly the sum of the record's own input and output token
cells. -/
theorem C6_total_tokens :
    ∀ (rows : List Prompt) (nr : NormPrompt), nr ∈ preprocess_data rows →
      nr.total_tokens
        = pfAdd nr.base.numberOfInputTokens nr.base.numberOfOutputTokens := by
  intro rows nr hmem
  unfold preprocess_data addDerived at hmem
  rcases List.mem_map.mp hmem with ⟨r0, _, rfl⟩
  rfl

/-- Witness for C6 on the concrete sent record. -/
theorem C6_total_tokens_witness :
    ((preprocess_data [pSent]).getD 0 default).total_tokens
      = pfAdd ((preprocess_data [pSent]).getD 0 default).base.numberOfInputTokens
          ((preprocess_data [pSent]).getD 0 default).base.numberOfOutputTokens :=
  C6_total_tokens [pSent] _
    (by simp [preprocess_data, filterSent, addDerived, pSent])

/-- Claim C7 (amended): for grouped aggregations over the preprocessed
(sent-only) records, the sum of the count column equals the number of
preprocessed records having a non-missing grouping key and a non-NaN cell
in the counted column — records whose key is missing (e.g. `mode_name` NaN
from an unknown chat-mode code) are silently dropped from every group —
and a grouping-key value carried by no record produces no output row. -/
theorem C7_group_counts :
    (∀ (K : Type) [DecidableEq K] (key : NormPrompt → Option K)
        (col : NormPrompt → PFloat) (rows : List Prompt),
      sumCounts key col (preprocess_data rows)
        = ((preprocess_data rows).filter
            (fun nr => (key nr).isSome && !(col nr).isNan)).length)
    ∧ (∀ (K : Type) [DecidableEq K] (key : NormPrompt → Option K)
        (rows : List NormPrompt) (k : K),
      (∀ nr ∈ rows, ¬ key nr = some k) → ∀ g, (k, g) ∉ groupBy key rows) := by
  constructor
  · intro K _ key col rows
    exact sumCounts_eq key col (preprocess_data rows)
  · intro K _ key rows k h
    exact groupBy_no_row key rows k h

/-- Witness for C7: the key value `"z"`, carried by no row of the empty
normalized table, yields no group row. -/
theorem C7_group_counts_witness :
    ("z", ([] : List NormPrompt))
      ∉ groupBy (fun nr : NormPrompt => nr.mode_name) ([] : List NormPrompt) :=
  C7_group_counts.2 String (fun nr : NormPrompt => nr.mode_name) [] "z"
    (by simp) []

/-- Concrete record falsifying claim C7 as stated: a sent prompt whose
chat-mode code `3` is outside the lookup, so its `mode_name` key is
missing. -/
def pUnknownMode : Prompt :=
  { userId := "u1", conversationId := "c1", chatMode := 3, isSent := some true
    numberOfInputTokens := PFloat.num 10, numberOfOutputTokens := PFloat.num 5
    usageInWh := PFloat.num 1 }

/-- Counterexample to claim C7 as stated: grouping the single filtered
record with unknown mode by `mode_name` yields groups whose count column
sums to `0`, not to the filtered record count `1`. -/
theorem C7_group_counts_cex :
    sumCounts (fun nr : NormPrompt => nr.mode_name)
        (fun nr => nr.base.numberOfInputTokens) (preprocess_data [pUnknownMode])
      ≠ (preprocess_data [pUnknownMode]).length := by decide

/-- A keyword shared between a theme's keyword set and a response's token
set puts the theme among the response's primary themes. -/
theorem primary_mem (tokens : List String) (name : String) (kws : List String)
    (hmem : (name, kws) ∈ theme_mapping) (hw : ∃ w, w ∈ kws ∧ w ∈ tokens) :
    name ∈ primary_themes tokens := by
  rcases hw with ⟨w, hwk, hwt⟩
  unfold primary_themes
  apply List.mem_map.mpr
  refine ⟨(name, kws), List.mem_filter.mpr ⟨hmem, ?_⟩, rfl⟩
  simp only [List.any_eq_true]
  refine ⟨w, hwk, ?_⟩
  simp [List.contains]
  exact hwt

/-- Whenever the primary keyword match is non-empty, `assign_themes`
returns exactly the primary themes, independently of the LDA inputs. -/
theorem assign_of_primary (ldaT : List ℕ) (ldaF : ℕ → List String) (i : ℕ)
    (tokens : List String) (name : String) (h : name ∈ primary_themes tokens) :
    name ∈ assign_themes ldaT ldaF i tokens := by
  unfold assign_themes
  have hne : (primary_themes tokens).isEmpty = false := by
    rw [List.isEmpty_eq_false]
    exact List.ne_nil_of_mem h
  simp only [hne, Bool.false_eq_true, if_false]
  exact h

/-- Claim C8: a response whose cleaned token set contains `"transparency"`
is assigned the theme `"Awareness/Transparency"` by the primary keyword
match, whatever its other content and whatever the LDA clustering inputs
are; more generally every theme whose keyword set intersects the token set
is assigned (multi-label). -/
theorem C8_transparency_theme :
    (∀ (ldaT : List ℕ) (ldaF : ℕ → List String) (i : ℕ) (tokens : List String),
      "transparency" ∈ tokens →
        "Awareness/Transparency" ∈ assign_themes ldaT ldaF i tokens)
    ∧ (∀ (ldaT : List ℕ) (ldaF : ℕ → List String) (i : ℕ) (tokens : List String)
        (name : String) (kws : List String), (name, kws) ∈ theme_mapping →
        (∃ w, w ∈ kws ∧ w ∈ tokens) → name ∈ assign_themes ldaT ldaF i tokens) := by
  have hgen : ∀ (ldaT : List ℕ) (ldaF : ℕ → List String) (i : ℕ)
      (tokens : List String) (name : String) (kws : List String),
      (name, kws) ∈ theme_mapping → (∃ w, w ∈ kws ∧ w ∈ tokens) →
      name ∈ assign_themes ldaT ldaF i tokens := by
    intro ldaT ldaF i tokens name kws hmem hw
    exact assign_of_primary ldaT ldaF i tokens name (primary_mem tokens name kws hmem hw)
  refine ⟨?_, hgen⟩
  intro ldaT ldaF i tokens htok
  exact hgen ldaT ldaF i tokens "Awareness/Transparency"
    ["transparency", "awareness", "information", "disclosure", "visible", "show"]
    (by decide) ⟨"transparency", by decide, htok⟩

/-- Witness for C8: the one-token response `["transparency"]` with trivial
LDA inputs receives the theme `"Awareness/Transparency"`. -/
theorem C8_transparency_theme_witness :
    "Awareness/Transparency" ∈ assign_themes [] (fun _ => []) 0 ["transparency"] :=
  C8_transparency_theme.1 [] (fun _ => []) 0 ["transparency"] (by decide)

/-- Every response is assigned at least one theme: the primary match, the
LDA fallback, or the catch-all `General`. -/
theorem assign_ne_nil (ldaT : List ℕ) (ldaF : ℕ → List String) (i : ℕ)
    (tokens : List String) : assign_themes ldaT ldaF i tokens ≠ [] := by
  have key : ∀ P fb : List String,
      (if P.isEmpty then (if fb.isEmpty then ["General"] else fb) else P) ≠ [] := by
    intro P fb
    cases P with
    | nil =>
      cases fb with
      | nil => simp
      | cons x xs => simp
    | cons x xs => simp
  exact key (primary_themes tokens)
    (if i < ldaT.length then lda_fallback (ldaF (ldaT.getD i 0)) else [])

/-- A corpus in which every response carries at least one theme label has
at least as many labels as responses. -/
theorem allLabels_length_ge (rts : List (String × List String))
    (h : ∀ p ∈ rts, p.2 ≠ []) : rts.length ≤ (allLabels rts).length := by
  induction rts with
  | nil => simp
  | cons p t ih =>
    have hp : p.2 ≠ [] := h p (by simp)
    have ht : t.length ≤ (allLabels t).length := ih (fun q hq => h q (by simp [hq]))
    have h1 : 1 ≤ p.2.length := List.length_pos.mpr hp
    show t.length + 1 ≤ (p.2 ++ allLabels t).length
    rw [List.length_append]
    omega

/-- A constant factor distributes out of a sum of cast counts. -/
theorem sum_map_cast_mul (l : List String) (g : String → ℕ) (c : ℚ) :
    (l.map (fun t => (g t : ℚ) * c)).sum = (((l.map g).sum : ℕ) : ℚ) * c := by
  induction l with
  | nil => simp
  | cons x xs ih =>
    simp only [List.map_cons, List.sum_cons, Nat.cast_add]
    rw [ih]
    ring

/-- Every row of the frequency table states its theme's label count and the
rounded percentage of the respondent count (not of the label count). -/
theorem freq_row (rts : List (String × List String)) (row : String × ℕ × ℚ)
    (h : row ∈ freqTable rts) :
    row.2.1 = (allLabels rts).count row.1 ∧
      row.2.2 = round1 (((row.2.1 : ℚ) / (rts.length : ℚ)) * 100) := by
  unfold freqTable at h
  rcases List.mem_map.mp h with ⟨t, _, rfl⟩
  exact ⟨rfl, rfl⟩

/-- For a non-empty corpus in which every response carries at least one
theme, the unrounded theme percentages sum to at least 100%. -/
theorem freq_sum_ge (rts : List (String × List String)) (hne : rts ≠ [])
    (hth : ∀ p ∈ rts, p.2 ≠ []) :
    (100 : ℚ) ≤ ((freqTable rts).map
        (fun row => ((row.2.1 : ℚ) / (rts.length : ℚ)) * 100)).sum := by
  have hn : 0 < rts.length := List.length_pos.mpr hne
  have hnQ : ((rts.length : ℚ)) ≠ 0 := Nat.cast_ne_zero.mpr hn.ne'
  have hmap : (freqTable rts).map (fun row => ((row.2.1 : ℚ) / (rts.length : ℚ)) * 100)
      = (allLabels rts).dedup.map
          (fun t => (((allLabels rts).count t : ℚ)) * (100 / (rts.length : ℚ))) := by
    unfold freqTable
    rw [List.map_map]
    apply List.map_congr_left
    intro t _
    simp only [Function.comp]
    ring
  rw [hmap, sum_map_cast_mul]
  rw [List.sum_map_count_dedup_eq_length]
  have hge : rts.length ≤ (allLabels rts).length := allLabels_length_ge rts hth
  have hgeQ : ((rts.length : ℚ)) ≤ (((allLabels rts).length : ℕ) : ℚ) := by
    exact_mod_cast hge
  calc (100 : ℚ) = (rts.length : ℚ) * (100 / (rts.length : ℚ)) := by field_simp
    _ ≤ (((allLabels rts).length : ℕ) : ℚ) * (100 / (rts.length : ℚ)) := by
        apply mul_le_mul_of_nonneg_right hgeQ
        positivity

/-- Claim C9 (amended): every response receives at least one theme (via the
`General` catch-all); each frequency-table row's percentage is its label
count divided by the respondent count (not the label count), rounded to
one decimal by `round(·, 1)`; and under multi-label assignment the
unrounded percentages sum to at least 100% — but because each displayed
percentage is rounded, the displayed column itself can sum to slightly
less than 100%. -/
theorem C9_theme_percentages :
    (∀ (ldaT : List ℕ) (ldaF : ℕ → List String) (i : ℕ) (tokens : List String),
      assign_themes ldaT ldaF i tokens ≠ [])
    ∧ (∀ (rts : List (String × List String)) (row : String × ℕ × ℚ),
        row ∈ freqTable rts → row.2.1 = (allLabels rts).count row.1 ∧
          row.2.2 = round1 (((row.2.1 : ℚ) / (rts.length : ℚ)) * 100))
    ∧ (∀ rts : List (String × List String), rts ≠ [] → (∀ p ∈ rts, p.2 ≠ []) →
        (100 : ℚ) ≤ ((freqTable rts).map
          (fun row => ((row.2.1 : ℚ) / (rts.length : ℚ)) * 100)).sum) :=
  ⟨assign_ne_nil, freq_row, freq_sum_ge⟩

/-- Witness for C9 (amended) on the one-response corpus. -/
theorem C9_theme_percentages_witness :
    (100 : ℚ) ≤ ((freqTable [("x", ["General"])]).map
        (fun row => ((row.2.1 : ℚ) / (([("x", ["General"])] :
          List (String × List String)).length : ℚ)) * 100)).sum :=
  C9_theme_percentages.2.2 [("x", ["General"])] (by decide) (by decide)

/-- Concrete three-response corpus for the C9 counterexample: each response
matches exactly one distinct theme keyword. -/
def cexRts : List (String × List String) :=
  [("more transparency", assign_themes [] (fun _ => []) 0 ["transparency"]),
   ("tax it", assign_themes [] (fun _ => []) 1 ["tax"]),
   ("better algorithm", assign_themes [] (fun _ => []) 2 ["algorithm"])]

/-- The frequency table of the three-response corpus: three themes, each
with one response out of three. -/
theorem freqTable_cexRts_eq : freqTable cexRts =
    [("Awareness/Transparency", 1, round1 (((1 : ℕ) : ℚ) / ((3 : ℕ) : ℚ) * 100)),
     ("Policy/Tax/Offsets", 1, round1 (((1 : ℕ) : ℚ) / ((3 : ℕ) : ℚ) * 100)),
     ("Model/Algorithm Efficiency", 1,
       round1 (((1 : ℕ) : ℚ) / ((3 : ℕ) : ℚ) * 100))] := rfl

/-- Round-half-even at one decimal sends one third (as a percentage) to
33.3. -/
theorem round1_third : round1 (((1 : ℕ) : ℚ) / ((3 : ℕ) : ℚ) * 100) = 333 / 10 := by
  have harg : (((1 : ℕ) : ℚ) / ((3 : ℕ) : ℚ) * 100) * 10 = 1000 / 3 := by
    push_cast
    norm_num
  unfold round1 rhe
  rw [harg]
  have hfl : ⌊(1000 / 3 : ℚ)⌋ = 333 := by
    rw [Int.floor_eq_iff]
    norm_num
  rw [hfl]
  norm_num

/-- Counterexample to claim C9 as stated: on the three-response corpus the
displayed (rounded) percentage column sums to 99.9, strictly below 100%. -/
theorem C9_theme_percentages_cex :
    ((freqTable cexRts).map (fun row => row.2.2)).sum < 100 := by
  rw [freqTable_cexRts_eq]
  simp only [List.map_cons, List.map_nil, List.sum_cons, List.sum_nil]
  rw [round1_third]
  norm_num

/-- Claim C10: when the loaded prompt data lacks the `isSent` column
entirely (every record is without the field), `preprocess_data` performs no
sent-filtering at all: the filter step is the identity, every loaded record
flows into the normalized output, and each normalized record with a
non-missing grouping key lands in its group of every downstream grouped
aggregation. -/
theorem C10_missing_isSent_column :
    ∀ rows : List Prompt, (∀ r ∈ rows, r.isSent = none) →
      filterSent rows = rows
      ∧ (preprocess_data rows).map NormPrompt.base = rows
      ∧ (∀ (K : Type) [DecidableEq K] (key : NormPrompt → Option K)
          (nr : NormPrompt) (k : K), nr ∈ preprocess_data rows → key nr = some k →
          ∃ g, (k, g) ∈ groupBy key (preprocess_data rows) ∧ nr ∈ g) := by
  intro rows h
  have hf : filterSent rows = rows := by
    unfold filterSent
    rw [if_neg]
    intro hany
    rcases List.any_eq_true.mp hany with ⟨r, hr, hsome⟩
    rw [h r hr] at hsome
    simp at hsome
  refine ⟨hf, ?_, ?_⟩
  · unfold preprocess_data
    rw [hf]
    exact addDerived_base rows
  · intro K _ key nr k hnr hk
    exact mem_groupBy_self key (preprocess_data rows) nr k hnr hk

/-- Concrete record without an `isSent` field for the C10 witness. -/
def pNoSentField : Prompt :=
  { userId := "u9", conversationId := "c9", chatMode := 2, isSent := none
    numberOfInputTokens := PFloat.num 11, numberOfOutputTokens := PFloat.num 6
    usageInWh := PFloat.num 2 }

/-- Witness for C10: with only the field-less record loaded, the sent filter
is skipped and the record flows into the normalized output. -/
theorem C10_missing_isSent_column_witness :
    filterSent [pNoSentField] = [pNoSentField]
      ∧ (preprocess_data [pNoSentField]).map NormPrompt.base = [pNoSentField] :=
  ⟨(C10_missing_isSent_column [pNoSentField] (by simp [pNoSentField])).1,
   (C10_missing_isSent_column [pNoSentField] (by simp [pNoSentField])).2.1⟩
